import Mathlib

/-
Verification of the random-seek workload engine and surrounding phases of
bench-disk-bonnie.c (Martin Cracauer's bonnie variant).

The C code is shallowly embedded: machine integers are modelled as Nat/Int
(all quantities involved stay in range of the C types, as noted at each
definition), C doubles are modelled as exact rationals, and the I/O and
process layer is modelled by explicit data (lists of ticket bytes, lists of
worker reports, explicit success flags for fallible system calls, and event
traces for the rewrite loop).
-/

/-! Constants, from the #define block of bench-disk-bonnie.c. -/

def IntSize : Nat := 4

def Seeks : Nat := 100000

def UpdateSeek : Nat := 10

def SeekProcCount : Nat := 3

def Chunk : Nat := 8192

/-! ### Ticket protocol (do_seekstuff, lines 219-222 and 280-282)

The coordinator fills a buffer of `Seeks + SeekProcCount` bytes: the first
`Seeks` bytes are the value 1 ("perform"), the trailing `SeekProcCount`
bytes are the value 0 ("stop"); the buffer is then sent down the control
pipe in a single `write` of `sizeof(seek_tickets)` bytes. -/

/-- The ticket buffer built by `do_seekstuff`:
`for (next = 0; next < Seeks; next++) seek_tickets[next] = 1;`
`for ( ; next < (Seeks + SeekProcCount); next++) seek_tickets[next] = 0;` -/
def seek_tickets : List Nat :=
  List.replicate Seeks 1 ++ List.replicate SeekProcCount 0

/-- A consumption schedule assigns each successive byte of the ticket stream
to the worker that happens to read it from the pipe (the pipe delivers each
byte to exactly one reader, in order).  `workerReceived sched w` is the
sequence of ticket bytes worker `w` receives under schedule `sched`. -/
def workerReceived (sched : List (Fin SeekProcCount)) (w : Fin SeekProcCount) :
    List Nat :=
  (seek_tickets.zip sched).filterMap
    (fun p => if p.2 = w then some p.1 else none)

/-! ### Worker reports and the coordinator's collection loop
(do_seekstuff, lines 285-314)

Each child writes back a `seeker_report` array holding its CPU delta
(index `CPU`), its start time (index `StartTime`) and its end time (index
`EndTime`); C doubles are modelled as exact rationals. -/

/-- The `seeker_report[3]` record a worker sends up the feedback pipe. -/
structure SeekerReport where
  cpu : ℚ
  startTime : ℚ
  endTime : ℚ
deriving DecidableEq

/-- The parent's collection loop, lines 285-312 of do_seekstuff:
`for (next = 0; next < SeekProcCount; next++)` it blocks reading one report
(modelled by taking the head of `stream`; `none` models a read that can
never be served), accumulates `delta[whereto][CPU] += seeker_report[CPU]`,
tracks `first_start` / `last_stop` (first iteration initialises them, later
iterations keep the smaller start / larger stop), and calls `wait(&status)`
once per iteration (counted in `waits`).

Arguments: remaining iteration count, loop index `next`, the stream of
reports, the CPU accumulator, `first_start`, `last_stop`, the wait counter.
Returns the final accumulators plus the unread remainder of the stream. -/
def collect : Nat → Nat → List SeekerReport → ℚ → ℚ → ℚ → Nat →
    Option (ℚ × ℚ × ℚ × Nat × List SeekerReport)
  | 0, _, stream, cpu, fs, ls, waits => some (cpu, fs, ls, waits, stream)
  | _ + 1, _, [], _, _, _, _ => none
  | n + 1, next, r :: rest, cpu, fs, ls, waits =>
      collect n (next + 1) rest (cpu + r.cpu)
        (if next = 0 then r.startTime
         else if fs < r.startTime then fs else r.startTime)
        (if next = 0 then r.endTime
         else if ls > r.endTime then ls else r.endTime)
        (waits + 1)

/-- The aggregate figures do_seekstuff leaves behind for the phase. -/
structure AggResult where
  cpuTotal : ℚ
  elapsed : ℚ
  waits : Nat
  leftover : List SeekerReport
deriving DecidableEq

/-- The parent side of do_seekstuff after the tickets are written: collect
`SeekProcCount` reports (CPU accumulator starts at the phase's delta entry,
which is still at its zero-initialised value) and store
`delta[whereto][Elapsed] = last_stop - first_start`. -/
def do_seekstuff_parent (stream : List SeekerReport) : Option AggResult :=
  match collect SeekProcCount 0 stream 0 0 0 0 with
  | none => none
  | some (cpu, fs, ls, waits, rest) => some ⟨cpu, ls - fs, waits, rest⟩

/-- The same aggregation loop run over an arbitrary collection of reports
(the loop bound `SeekProcCount` generalised to the collection's size),
used to state properties of the aggregation algorithm itself. -/
def do_seekstuff_aggregate (reports : List SeekerReport) : Option AggResult :=
  match collect reports.length 0 reports 0 0 0 0 with
  | none => none
  | some (cpu, fs, ls, waits, rest) => some ⟨cpu, ls - fs, waits, rest⟩

/-! ### The probe: doseek (lines 670-696) and the worker's call site
(lines 248-254) -/

/-- What one successful doseek call does (seek target, whether the block was
dirtied and written back, and which word index was decremented). -/
structure DoseekResult where
  probe : Nat
  wrote : Bool
  touched : Option Nat
deriving DecidableEq

/-- doseek under the assumption that every system call succeeds.
`whereArg` is the `where` argument, `size` the byte count the `read`
returned, `r` the value of the `random()` call in the update branch.
`probe = (where / Chunk) * Chunk`; the block is dirtied and written back
exactly when `update && do_touch`, decrementing word
`((long long) random() % (size/IntSize - 2)) + 1` of the block.
All quantities are nonnegative and in range of their C types, so Nat
division and mod coincide with the C operations. -/
def doseek (whereArg : Nat) (update do_touch : Bool) (size r : Nat) :
    DoseekResult :=
  let probe := whereArg / Chunk * Chunk
  if update && do_touch then
    ⟨probe, true, some (r % (size / IntSize - 2) + 1)⟩
  else
    ⟨probe, false, none⟩

/-- Outcome of a code path containing calls to `io_error`: either a normal
result, or process termination through `io_error(msg)` (diagnostic `msg`,
exit status 1). -/
inductive IOResult (α : Type) where
  | ok (val : α)
  | fatal (msg : String)
deriving DecidableEq

/-- doseek with its fallible system calls made explicit: `seek1_ok` is the
initial lseek, `read_ret` the read result (`none` = failed read), and
`seek2_ok`, `write_ok`, `fsync_ok` the calls of the update branch.  Any
failure goes to `io_error`, modelled as `IOResult.fatal` carrying the
diagnostic string the code passes to `io_error`. -/
def doseek_run (whereArg : Nat) (update do_touch : Bool) (seek1_ok : Bool)
    (read_ret : Option Nat) (r : Nat) (seek2_ok write_ok fsync_ok : Bool) :
    IOResult DoseekResult :=
  let probe := whereArg / Chunk * Chunk
  if ¬seek1_ok then IOResult.fatal "lseek in doseek"
  else
    match read_ret with
    | none => IOResult.fatal "read in doseek"
    | some size =>
      if update && do_touch then
        if ¬seek2_ok then IOResult.fatal "lseek in doseek update"
        else if ¬write_ok then IOResult.fatal "write in doseek"
        else if ¬fsync_ok then IOResult.fatal "fsync(2) in seek w/write(2)"
        else IOResult.ok ⟨probe, true, some (r % (size / IntSize - 2) + 1)⟩
      else IOResult.ok ⟨probe, false, none⟩

/-- The `update` argument the worker passes on its `n`-th probe
(`lseek_count` starts at 0 and is post-incremented):
`(lseek_count++ % UpdateSeek) == 0`. -/
def worker_probe_update (n : Nat) : Bool := n % UpdateSeek == 0

/-- The `where` argument the worker passes, line 250:
`(long long) ((random() * 0xFFFFFFFF) % file_size)`.  `random()` returns a
value in `[0, 2^31)`, so the product is below `2^63` and the C `long`
arithmetic is exact; both operands of `%` are nonnegative, so C `%` is
Nat mod. -/
def worker_seek_where (r fsize : Nat) : Nat := (r * 0xFFFFFFFF) % fsize

/-- One fiber of the offset map over the full range `[0, 2^31)` of
`random()`: the set of random values that are sent to offset `y` for file
size `N`. -/
def seekOffsetFiber (N y : Nat) : Finset Nat :=
  (Finset.range (2 ^ 31)).filter (fun r => worker_seek_where r N = y)

/-- The offsets are uniformly distributed over `[0, N)` (for `random()`
uniform on its range): every offset below `N` is hit by equally many
random values. -/
def seekOffsetUniform (N : Nat) : Prop :=
  ∀ y1, y1 < N → ∀ y2, y2 < N →
    (seekOffsetFiber N y1).card = (seekOffsetFiber N y2).card

/-! ### Error handling: io_error (lines 644-653) and the worker's
post-stop-ticket sequence (lines 255-267) -/

/-- `io_error(message)`: prints `bonnie: drastic I/O error (message)` via
perror and exits with status 1.  Modelled as the (exit status, diagnostic)
pair the process terminates with. -/
def io_error (message : String) : Nat × String :=
  (1, "bonnie: drastic I/O error (" ++ message ++ ")")

/-- What the worker does after reading its stop ticket, lines 255-267:
`fsync` — on failure only `perror("fsync after seek")` and continue;
`close` — on failure `io_error("close after seek")`;
then the report write to the feedback pipe — on failure
`io_error("pipe write")`; otherwise `exit(0)`.
Returns the warnings printed to stderr and the worker's exit status. -/
def worker_finish (fsync_ok close_ok report_ok : Bool) : List String × Nat :=
  let warnings := if fsync_ok then [] else ["fsync after seek"]
  if ¬close_ok then (warnings, (io_error "close after seek").1)
  else if ¬report_ok then (warnings, (io_error "pipe write").1)
  else (warnings, 0)

/-! ### Command-line parsing (main, lines 357-381; usage, lines 574-580) -/

/-- C `isspace` on the characters `atoll`/`strtoll` skips. -/
def isSpaceC (c : Char) : Bool :=
  (c.toNat == 32) || (Nat.blt 8 c.toNat && Nat.blt c.toNat 14)

/-- Accumulate a decimal digit prefix, stopping at the first non-digit. -/
def atoll_digits : List Char → Nat → Nat
  | [], acc => acc
  | c :: cs, acc =>
      if c.isDigit then atoll_digits cs (acc * 10 + (c.toNat - 48)) else acc

/-- `atoll(3)`: skip leading whitespace, take an optional sign, then the
longest decimal digit prefix; anything else yields 0.  (Overflow, undefined
for atoll, is not modelled; values stay unbounded.) -/
def atoll (s : String) : Int :=
  match s.toList.dropWhile isSpaceC with
  | '-' :: rest => -(atoll_digits rest 0 : Int)
  | '+' :: rest => (atoll_digits rest 0 : Int)
  | rest => (atoll_digits rest 0 : Int)

/-- The mutable configuration main's argument loop fills in:
`dir` (default "."), `file_size` (default 24, in GB, scaled by 2^30 only
after parsing), `machine` (default ""), `do_random` (default 0). -/
structure Config where
  dir : String
  fileSize : Int
  machine : String
  do_random : Bool
deriving DecidableEq

/-- main's argument loop, lines 361-380.  The loop runs
`for (next = 1; next < argc - 1; next++)`, i.e. while at least two
arguments remain unexamined, so the list argument here is `argv[next:]`.
A recognized flag consumes itself and the following argument (the `next++`
at the end of the option branch applies to `-r` too); anything else —
an argument not starting with `-`, or a `-` flag that is none of
`d`, `s`, `m`, `r` — calls `usage()`, which prints the usage text and
exits with status 1 (modelled as `none`).  After the loop,
`if (file_size < 1) usage();`. -/
def parse_opts : List String → Config → Option Config
  | a :: b :: rest, cfg =>
    (match a.toList with
     | '-' :: flag =>
       if flag = ['d'] then parse_opts rest { cfg with dir := b }
       else if flag = ['s'] then parse_opts rest { cfg with fileSize := atoll b }
       else if flag = ['m'] then parse_opts rest { cfg with machine := b }
       else if flag = ['r'] then parse_opts rest { cfg with do_random := true }
       else none
     | _ => none)
  | _, cfg => if cfg.fileSize < 1 then none else some cfg

/-- Argument handling of main on a full argv (program name included),
with the globals' initial values. -/
def bonnie_parse (argv : List String) : Option Config :=
  parse_opts (argv.drop 1) ⟨".", 24, "", false⟩

/-- Is `a` one of the four recognized option flags? -/
def recognized_flag (a : String) : Bool :=
  match a.toList with
  | '-' :: flag =>
      (flag == ['d']) || (flag == ['s']) || (flag == ['m']) || (flag == ['r'])
  | _ => false

/-! ### The rewrite phase (main, lines 427-462)

The file is scanned with `read(fd, buf, Chunk)`; while a full block comes
back, one word is dirtied, the descriptor is seeked back by the amount just
read, and the buffer is written *twice* before the next read.  Only the
file offset and length of each call matter here, so the phase is modelled
as an event trace over a byte-addressed file of a given size; a write past
the current end extends the file. -/

/-- One system call of the rewrite phase as visible on the descriptor. -/
inductive RwEvent where
  | readEv (off len ret : Nat)
  | seekEv (off : Nat)
  | writeEv (off len : Nat)
deriving DecidableEq

/-- File-descriptor state during the rewrite phase. -/
structure FState where
  size : Nat
  pos : Nat
  trace : List RwEvent
deriving DecidableEq

/-- The rewrite while-loop, lines 436-456: while the previous read returned
a full `Chunk` (`words == Chunk`), seek back by `words`
(`lseek(fd, -words, 1)`), write the buffer (`write(fd, buf, words)`)
twice in a row, then read the next block.  `fuel` bounds the number of
iterations (the loop always terminates because the position advances by
`2 * Chunk` per iteration while the size grows to at most the position). -/
def rewrite_loop (fuel : Nat) (s : FState) (words : Nat) : Option FState :=
  match fuel with
  | 0 => none
  | fuel + 1 =>
    if words = Chunk then
      let p := s.pos - words
      let size2 := max s.size (p + words)
      let size3 := max size2 (p + words + words)
      let ret := min Chunk (size3 - (p + words + words))
      rewrite_loop fuel
        ⟨size3, p + words + words + ret,
         s.trace ++ [RwEvent.seekEv p, RwEvent.writeEv p words,
                     RwEvent.writeEv (p + words) words,
                     RwEvent.readEv (p + words + words) Chunk ret]⟩
        ret
    else some s

/-- The rewrite phase: `lseek(fd, 0, 0)`, one initial read, then the loop.
`size0` is the file size on entry. -/
def rewrite_phase (fuel size0 : Nat) : Option FState :=
  let ret := min Chunk size0
  rewrite_loop fuel ⟨size0, ret, [RwEvent.readEv 0 Chunk ret]⟩ ret

/-- Formalisation of the claim's wording for the rewrite phase: every write
issued goes to the offset of the most recently read block (the block is
"written back at its original offset").  `cur` is the offset of the last
read seen so far. -/
def writes_target_last_read (tr : List RwEvent) (cur : Nat) : Bool :=
  match tr with
  | [] => true
  | RwEvent.readEv off _ _ :: rest => writes_target_last_read rest off
  | RwEvent.seekEv _ :: rest => writes_target_last_read rest cur
  | RwEvent.writeEv off _ :: rest =>
      (off == cur) && writes_target_last_read rest cur

/-! ## Helper lemmas -/

lemma getD_replicate_append_lt {α : Type} (d a : α) (l : List α) (n i : Nat)
    (h : i < n) : (List.replicate n a ++ l).getD i d = a := by
  induction n generalizing i with
  | zero => omega
  | succ n ih =>
    cases i with
    | zero => simp [List.replicate_succ]
    | succ i =>
      simp only [List.replicate_succ, List.cons_append, List.getD_cons_succ]
      exact ih i (by omega)

lemma getD_replicate_append_ge {α : Type} (d a : α) (l : List α) (n i : Nat)
    (h : n ≤ i) : (List.replicate n a ++ l).getD i d = l.getD (i - n) d := by
  induction n generalizing i with
  | zero => simp
  | succ n ih =>
    cases i with
    | zero => omega
    | succ i =>
      simp only [List.replicate_succ, List.cons_append, List.getD_cons_succ]
      rw [ih i (by omega)]
      congr 1
      omega

lemma getD_replicate_of_lt {α : Type} (d a : α) (n i : Nat) (h : i < n) :
    (List.replicate n a).getD i d = a := by
  have := getD_replicate_append_lt d a [] n i h
  simpa using this

/-- Distributing a list of (ticket byte, reader) pairs to the readers and
counting the 1-bytes each reader got sums back to the number of 1-bytes in
the whole stream: the pipe neither loses nor duplicates tickets. -/
lemma ticket_split_count (k : Nat) (pairs : List (Nat × Fin k)) :
    (∑ w : Fin k,
      ((pairs.filterMap fun q => if q.2 = w then some q.1 else none).count 1))
      = (pairs.map Prod.fst).count 1 := by
  induction pairs with
  | nil => simp
  | cons p ps ih =>
    obtain ⟨t, j⟩ := p
    have step : ∀ w : Fin k,
        ((((t, j) :: ps).filterMap
            fun q => if q.2 = w then some q.1 else none).count 1)
          = ((ps.filterMap fun q => if q.2 = w then some q.1 else none).count 1)
            + (if j = w then (if t = 1 then 1 else 0) else 0) := by
      intro w
      by_cases h : j = w
      · subst h
        simp [List.filterMap_cons, List.count_cons]
      · simp [List.filterMap_cons, h]
    calc (∑ w : Fin k,
            ((((t, j) :: ps).filterMap
                fun q => if q.2 = w then some q.1 else none).count 1))
        = ∑ w : Fin k,
            (((ps.filterMap fun q => if q.2 = w then some q.1 else none).count 1)
              + (if j = w then (if t = 1 then 1 else 0) else 0)) :=
          Finset.sum_congr rfl (fun w _ => step w)
      _ = (ps.map Prod.fst).count 1 + (if t = 1 then 1 else 0) := by
          rw [Finset.sum_add_distrib, ih, Finset.sum_ite_eq]
          simp
      _ = (((t, j) :: ps).map Prod.fst).count 1 := by
          simp [List.count_cons]

lemma seek_tickets_length : seek_tickets.length = Seeks + SeekProcCount := by
  simp [seek_tickets]

/-- `(a < b) ? a : b` is `min`. -/
lemma ite_lt_min (x y : ℚ) : (if x < y then x else y) = min x y := by
  rcases lt_or_ge x y with h | h
  · rw [if_pos h, min_eq_left h.le]
  · rw [if_neg (not_lt.mpr h), min_eq_right h]

/-- `(a > b) ? a : b` is `max`. -/
lemma ite_gt_max (x y : ℚ) : (if x > y then x else y) = max x y := by
  rcases lt_or_ge y x with h | h
  · rw [if_pos h, max_eq_left h.le]
  · rw [if_neg (not_lt.mpr h), max_eq_right h]

lemma foldl_min_le_init (f : SeekerReport → ℚ) (rs : List SeekerReport)
    (a : ℚ) : rs.foldl (fun x q => min x (f q)) a ≤ a := by
  induction rs generalizing a with
  | nil => exact le_refl a
  | cons q rest ih =>
    exact le_trans (ih (min a (f q))) (min_le_left _ _)

lemma foldl_min_le_mem (f : SeekerReport → ℚ) (rs : List SeekerReport)
    (a : ℚ) (r : SeekerReport) (h : r ∈ rs) :
    rs.foldl (fun x q => min x (f q)) a ≤ f r := by
  induction rs generalizing a with
  | nil => cases h
  | cons q rest ih =>
    rcases List.mem_cons.mp h with h | h
    · subst h
      exact le_trans (foldl_min_le_init f rest (min a (f r))) (min_le_right _ _)
    · exact ih (min a (f q)) h

lemma foldl_max_ge_init (f : SeekerReport → ℚ) (rs : List SeekerReport)
    (a : ℚ) : a ≤ rs.foldl (fun x q => max x (f q)) a := by
  induction rs generalizing a with
  | nil => exact le_refl a
  | cons q rest ih =>
    exact le_trans (le_max_left _ _) (ih (max a (f q)))

lemma foldl_max_ge_mem (f : SeekerReport → ℚ) (rs : List SeekerReport)
    (a : ℚ) (r : SeekerReport) (h : r ∈ rs) :
    f r ≤ rs.foldl (fun x q => max x (f q)) a := by
  induction rs generalizing a with
  | nil => cases h
  | cons q rest ih =>
    rcases List.mem_cons.mp h with h | h
    · subst h
      exact le_trans (le_max_right _ _) (foldl_max_ge_init f rest (max a (f r)))
    · exact ih (max a (f q)) h

/-- Running the collection loop from a non-first iteration (`0 < next`)
computes the CPU sum, the running minimum of the start times, the running
maximum of the end times, and one `wait` per report. -/
lemma collect_pos (rs : List SeekerReport) :
    ∀ (next : Nat) (cpu fs ls : ℚ) (waits : Nat), 0 < next →
      collect rs.length next rs cpu fs ls waits
        = some (cpu + (rs.map SeekerReport.cpu).sum,
                rs.foldl (fun x q => min x q.startTime) fs,
                rs.foldl (fun x q => max x q.endTime) ls,
                waits + rs.length, []) := by
  induction rs with
  | nil =>
    intro next cpu fs ls waits _
    simp [collect]
  | cons r rest ih =>
    intro next cpu fs ls waits h
    have hnz : ¬(next = 0) := by omega
    simp only [List.length_cons, collect, hnz, if_false, ite_lt_min, ite_gt_max]
    rw [ih (next + 1) (cpu + r.cpu) (min fs r.startTime) (max ls r.endTime)
        (waits + 1) (by omega)]
    simp only [Option.some.injEq, Prod.mk.injEq, List.map_cons, List.sum_cons,
      List.foldl_cons, List.length_cons]
    refine ⟨by ring, ?_⟩
    simp
    omega

/-- One full run of the collection loop over `r :: rs` reports. -/
lemma collect_head (r : SeekerReport) (rs : List SeekerReport)
    (cpu fs ls : ℚ) (waits : Nat) :
    collect (r :: rs).length 0 (r :: rs) cpu fs ls waits
      = some (cpu + r.cpu + (rs.map SeekerReport.cpu).sum,
              rs.foldl (fun x q => min x q.startTime) r.startTime,
              rs.foldl (fun x q => max x q.endTime) r.endTime,
              waits + 1 + rs.length, []) := by
  simp only [List.length_cons, collect, eq_self_iff_true, if_true, Nat.zero_add]
  rw [collect_pos rs 1 (cpu + r.cpu) r.startTime r.endTime (waits + 1)
      (by omega)]

/-! ## Claim theorems -/

/-- C1: the ticket buffer do_seekstuff builds and sends in one bulk write
has exactly `Seeks + SeekProcCount` bytes (`Seeks = 100000`,
`SeekProcCount = 3`); every byte at index `i < Seeks` is 1 ("perform"),
every byte at index `Seeks ≤ i < Seeks + SeekProcCount` is 0 ("stop"); and
however the pipe distributes the stream among the workers (any schedule
assigning each byte to exactly one worker), the perform tickets consumed
across all workers sum to exactly `Seeks` — no loss, no duplication. -/
theorem ticket_buffer_spec :
    seek_tickets.length = Seeks + SeekProcCount
    ∧ (∀ i, i < Seeks → seek_tickets.getD i 2 = 1)
    ∧ (∀ i, Seeks ≤ i → i < Seeks + SeekProcCount → seek_tickets.getD i 2 = 0)
    ∧ (∀ sched : List (Fin SeekProcCount),
        sched.length = Seeks + SeekProcCount →
        (∑ w : Fin SeekProcCount, (workerReceived sched w).count 1) = Seeks) := by
  refine ⟨seek_tickets_length, ?_, ?_, ?_⟩
  · intro i hi
    exact getD_replicate_append_lt 2 1 _ Seeks i hi
  · intro i h1 h2
    rw [seek_tickets, getD_replicate_append_ge 2 1 _ Seeks i h1]
    exact getD_replicate_of_lt 2 0 SeekProcCount (i - Seeks) (by omega)
  · intro sched hlen
    unfold workerReceived
    rw [ticket_split_count]
    rw [List.map_fst_zip seek_tickets sched
        (by rw [hlen, seek_tickets_length])]
    simp [seek_tickets, List.count_append, List.count_replicate]

/-- Witness for C1 at concrete inputs: the first byte is a perform ticket,
the byte at index `Seeks` is a stop ticket, and under the schedule that
hands every byte to worker 0 the perform tickets consumed sum to `Seeks`. -/
theorem ticket_buffer_spec_witness :
    seek_tickets.getD 0 2 = 1
    ∧ seek_tickets.getD Seeks 2 = 0
    ∧ (∑ w : Fin SeekProcCount,
        (workerReceived
          (List.replicate (Seeks + SeekProcCount) ⟨0, by norm_num [SeekProcCount]⟩)
          w).count 1) = Seeks :=
  ⟨ticket_buffer_spec.2.1 0 (by norm_num [Seeks]),
   ticket_buffer_spec.2.2.1 Seeks le_rfl (by norm_num [Seeks, SeekProcCount]),
   ticket_buffer_spec.2.2.2 _ (by simp)⟩

/-- C2: the aggregation loop of do_seekstuff over the three collected
worker reports computes the phase CPU figure as the exact sum of the
reported cpu values, and the phase elapsed figure as the maximum of the end
checkpoints minus the minimum of the start checkpoints — not a sum of
individual spans.  (C doubles are modelled as exact rationals.) -/
theorem seek_aggregation_formula (a b c : SeekerReport) :
    do_seekstuff_parent [a, b, c]
      = some ⟨a.cpu + b.cpu + c.cpu,
              max a.endTime (max b.endTime c.endTime)
                - min a.startTime (min b.startTime c.startTime),
              SeekProcCount, []⟩ := by
  have h : ([a, b, c] : List SeekerReport).length = SeekProcCount := by
    simp [SeekProcCount]
  unfold do_seekstuff_parent
  rw [← h, collect_head]
  simp only [List.map_cons, List.map_nil, List.sum_cons, List.sum_nil,
    List.foldl_cons, List.foldl_nil, List.length_cons, List.length_nil]
  congr 1
  simp only [AggResult.mk.injEq]
  refine ⟨by ring, by rw [min_assoc, max_assoc], by simp [SeekProcCount], trivial⟩

/-- C3: for any non-empty collection of worker reports in which each end
checkpoint is at least its start checkpoint, the elapsed value computed by
do_seekstuff's aggregation loop dominates every individual worker's
`end - start` span and is nonnegative. -/
theorem aggregate_elapsed_dominates (reports : List SeekerReport)
    (hne : reports ≠ [])
    (hok : ∀ r ∈ reports, r.startTime ≤ r.endTime) :
    ∃ res, do_seekstuff_aggregate reports = some res
      ∧ (∀ r ∈ reports, r.endTime - r.startTime ≤ res.elapsed)
      ∧ 0 ≤ res.elapsed := by
  obtain ⟨r, rs, rfl⟩ := List.exists_cons_of_ne_nil hne
  refine ⟨⟨r.cpu + (rs.map SeekerReport.cpu).sum,
           rs.foldl (fun x q => max x q.endTime) r.endTime
             - rs.foldl (fun x q => min x q.startTime) r.startTime,
           0 + 1 + rs.length, []⟩, ?_, ?_, ?_⟩
  · unfold do_seekstuff_aggregate
    rw [collect_head]
    rw [zero_add]
  · intro q hq
    rcases List.mem_cons.mp hq with h | h
    · subst h
      exact sub_le_sub (foldl_max_ge_init _ rs _)
        (foldl_min_le_init _ rs _)
    · exact sub_le_sub (foldl_max_ge_mem _ rs _ q h)
        (foldl_min_le_mem _ rs _ q h)
  · have h1 : r.endTime - r.startTime ≤
        rs.foldl (fun x q => max x q.endTime) r.endTime
          - rs.foldl (fun x q => min x q.startTime) r.startTime :=
      sub_le_sub (foldl_max_ge_init _ rs _) (foldl_min_le_init _ rs _)
    have h2 : (0 : ℚ) ≤ r.endTime - r.startTime :=
      sub_nonneg.mpr (hok r (List.mem_cons_self r rs))
    exact le_trans h2 h1

/-- Witness for C3 at a concrete single-report collection. -/
theorem aggregate_elapsed_dominates_witness :
    ∃ res, do_seekstuff_aggregate [⟨1, 0, 5⟩] = some res
      ∧ (∀ r ∈ ([⟨1, 0, 5⟩] : List SeekerReport),
          r.endTime - r.startTime ≤ res.elapsed)
      ∧ 0 ≤ res.elapsed :=
  aggregate_elapsed_dominates [⟨1, 0, 5⟩] (by simp)
    (by intro r hr; simp at hr; subst hr; norm_num)

/-- C8: for the configured worker count, the coordinator reads exactly
`SeekProcCount` complete reports from the feedback pipe before returning
(the first `SeekProcCount` of the stream; the rest is left unread) and
performs one `wait` per spawned worker. -/
theorem coordinator_collects_all (stream : List SeekerReport)
    (h : SeekProcCount ≤ stream.length) :
    ∃ res, do_seekstuff_parent stream = some res
      ∧ res.waits = SeekProcCount
      ∧ res.leftover = stream.drop SeekProcCount := by
  rcases stream with _ | ⟨a, _ | ⟨b, _ | ⟨c, rest⟩⟩⟩
  · simp [SeekProcCount] at h
  · simp [SeekProcCount] at h
  · simp [SeekProcCount] at h
  · have hc : collect SeekProcCount 0 (a :: b :: c :: rest) 0 0 0 0
        = some (0 + a.cpu + b.cpu + c.cpu,
                min (min a.startTime b.startTime) c.startTime,
                max (max a.endTime b.endTime) c.endTime,
                3, rest) := by
      simp [SeekProcCount, collect, ite_lt_min, ite_gt_max]
      constructor
      · simp only [← min_lt_iff]
        exact ite_lt_min _ _
      · simp only [← lt_max_iff]
        exact ite_gt_max _ _
    refine ⟨⟨0 + a.cpu + b.cpu + c.cpu,
             max (max a.endTime b.endTime) c.endTime
               - min (min a.startTime b.startTime) c.startTime,
             3, rest⟩, ?_, by simp [SeekProcCount], by simp [SeekProcCount]⟩
    unfold do_seekstuff_parent
    rw [hc]

/-- Witness for C8 at a concrete four-report stream: exactly three are
consumed, one is left. -/
theorem coordinator_collects_all_witness :
    ∃ res, do_seekstuff_parent
        [⟨1, 2, 3⟩, ⟨4, 5, 6⟩, ⟨7, 8, 9⟩, ⟨1, 1, 1⟩] = some res
      ∧ res.waits = SeekProcCount
      ∧ res.leftover
          = ([⟨1, 2, 3⟩, ⟨4, 5, 6⟩, ⟨7, 8, 9⟩, ⟨1, 1, 1⟩] :
              List SeekerReport).drop SeekProcCount :=
  coordinator_collects_all _ (by norm_num [SeekProcCount])

lemma duty_cycle_card (n : Nat) :
    ((Finset.range UpdateSeek).filter
        (fun k => (n + k) % UpdateSeek = 0)).card = 1 := by
  have key : ∀ r, r < UpdateSeek →
      ((Finset.range UpdateSeek).filter
          (fun k => (r + k) % UpdateSeek = 0)).card = 1 := by decide
  have hmod : ∀ k, ((n + k) % UpdateSeek = 0)
      ↔ ((n % UpdateSeek + k) % UpdateSeek = 0) := by
    intro k
    simp only [UpdateSeek]
    omega
  have hf : (Finset.range UpdateSeek).filter (fun k => (n + k) % UpdateSeek = 0)
      = (Finset.range UpdateSeek).filter
          (fun k => (n % UpdateSeek + k) % UpdateSeek = 0) :=
    Finset.filter_congr (fun k _ => hmod k)
  rw [hf]
  exact key (n % UpdateSeek) (Nat.mod_lt n (by norm_num [UpdateSeek]))

/-- The block is dirtied and written back exactly when doseek is called
with `update && do_touch`. -/
lemma doseek_wrote (whereArg : Nat) (update do_touch : Bool) (size r : Nat) :
    (doseek whereArg update do_touch size r).wrote = (update && do_touch) := by
  cases update <;> cases do_touch <;> simp [doseek]

/-- C4: the dirty-and-write-back in doseek is a fixed duty cycle of period
`UpdateSeek = 10` on the worker's `lseek_count` (the worker's `n`-th probe
passes `update = ((lseek_count++ % UpdateSeek) == 0)`), independent of the
random stream: in any 10 consecutive probes of a phase that allows writes
exactly one triggers the write-back, and with `do_write = 0` no probe ever
writes, whatever offset, read size or random value is involved. -/
theorem doseek_duty_cycle (off size r n : Nat) :
    ((Finset.range UpdateSeek).filter
        (fun k =>
          (doseek off (worker_probe_update (n + k)) true size r).wrote
            = true)).card = 1
    ∧ ∀ k, (doseek off (worker_probe_update k) false size r).wrote = false := by
  constructor
  · have hf : (Finset.range UpdateSeek).filter
          (fun k =>
            (doseek off (worker_probe_update (n + k)) true size r).wrote = true)
        = (Finset.range UpdateSeek).filter
            (fun k => (n + k) % UpdateSeek = 0) := by
      refine Finset.filter_congr (fun k _ => ?_)
      rw [doseek_wrote, Bool.and_true, worker_probe_update]
      simp
    rw [hf]
    exact duty_cycle_card n
  · intro k
    rw [doseek_wrote, Bool.and_false]

/-- The seek target doseek computes is the probe offset aligned down to a
`Chunk` boundary, in every branch. -/
lemma doseek_probe (whereArg : Nat) (update do_touch : Bool) (size r : Nat) :
    (doseek whereArg update do_touch size r).probe
      = whereArg / Chunk * Chunk := by
  unfold doseek
  by_cases h : (update && do_touch) = true
  · rw [if_pos h]
  · rw [if_neg h]

/-- C5 (amended): the worker's random offset
`(random() * 0xFFFFFFFF) % file_size` always lies in `[0, file_size)`, and
after doseek aligns it down to the `Chunk` boundary the probe offset never
exceeds `file_size - Chunk`, whenever the file size is a positive multiple
of `Chunk`.  (The distribution over `[0, file_size)` is however NOT
uniform; see the counterexample.) -/
theorem seek_offset_in_range (r N size rnd : Nat) (update do_touch : Bool)
    (h1 : 0 < N) (h2 : Chunk ∣ N) :
    worker_seek_where r N < N
    ∧ (doseek (worker_seek_where r N) update do_touch size rnd).probe
        ≤ N - Chunk := by
  have hoff : worker_seek_where r N < N := Nat.mod_lt _ h1
  refine ⟨hoff, ?_⟩
  rw [doseek_probe]
  obtain ⟨m, hm⟩ := h2
  have hlt : worker_seek_where r N < Chunk * m := by rw [← hm]; exact hoff
  have hq : worker_seek_where r N / Chunk < m :=
    (Nat.div_lt_iff_lt_mul (by norm_num [Chunk])).mpr
      (by rw [Nat.mul_comm m Chunk]; exact hlt)
  have hchunk : Chunk = 8192 := rfl
  rw [hchunk] at hm hq ⊢
  omega

/-- C5 (counterexample to uniformity): at the program's default file size
(24 GB, i.e. `24 * 2^30` bytes), `3` divides both `0xFFFFFFFF` and the file
size, so every generated offset is a multiple of 3; offset 1 is never
produced, hence the offsets are not uniformly distributed over
`[0, file_size)`. -/
theorem seek_offset_not_uniform : ¬ seekOffsetUniform (24 * 2 ^ 30) := by
  intro h
  have h01 := h 0 (by norm_num) 1 (by norm_num)
  have hdiv : ∀ x, worker_seek_where x (24 * 2 ^ 30) % 3 = 0 := by
    intro x
    unfold worker_seek_where
    rw [Nat.mod_mod_of_dvd _ (by norm_num : (3 : ℕ) ∣ 24 * 2 ^ 30)]
    rw [Nat.mul_mod]
    norm_num
  have hempty : seekOffsetFiber (24 * 2 ^ 30) 1 = ∅ := by
    rw [Finset.eq_empty_iff_forall_not_mem]
    intro x hx
    rw [seekOffsetFiber, Finset.mem_filter] at hx
    have h3 := hdiv x
    rw [hx.2] at h3
    norm_num at h3
  have hmem : (0 : ℕ) ∈ seekOffsetFiber (24 * 2 ^ 30) 0 := by
    rw [seekOffsetFiber, Finset.mem_filter, Finset.mem_range]
    exact ⟨by norm_num, by simp [worker_seek_where]⟩
  rw [hempty, Finset.card_empty] at h01
  have hpos := Finset.card_pos.mpr ⟨0, hmem⟩
  omega

/-- Witness for C5 (amended) at concrete inputs: `r = 3`, a two-block
file. -/
theorem seek_offset_in_range_witness :
    worker_seek_where 3 (2 * Chunk) < 2 * Chunk
    ∧ (doseek (worker_seek_where 3 (2 * Chunk)) true true Chunk 0).probe
        ≤ 2 * Chunk - Chunk :=
  seek_offset_in_range 3 (2 * Chunk) Chunk 0 true true
    (by norm_num [Chunk]) ⟨2, by rw [Nat.mul_comm]⟩

/-- C10: whenever the preceding read returned `size` bytes with
`size / IntSize ≥ 3`, the modulus divisor `size/IntSize - 2` in doseek's
update branch is positive, and the decremented word index
`(random() % (size/IntSize - 2)) + 1` lies in `[1, size/IntSize - 2]` —
strictly inside the just-read block, never its first word (index 0) and
never its last word (index `size/IntSize - 1`). -/
theorem doseek_touch_index_safe (whereArg size r : Nat)
    (h : 3 ≤ size / IntSize) :
    0 < size / IntSize - 2
    ∧ ∃ idx, (doseek whereArg true true size r).touched = some idx
        ∧ 1 ≤ idx ∧ idx ≤ size / IntSize - 2 ∧ idx < size / IntSize - 1 := by
  have hd : 0 < size / IntSize - 2 := by omega
  have hmod := Nat.mod_lt r hd
  refine ⟨hd, r % (size / IntSize - 2) + 1, ?_, by omega, by omega, by omega⟩
  simp [doseek]

/-- Witness for C10 at a full-block read of `Chunk` bytes. -/
theorem doseek_touch_index_safe_witness :
    0 < Chunk / IntSize - 2
    ∧ ∃ idx, (doseek 0 true true Chunk 77).touched = some idx
        ∧ 1 ≤ idx ∧ idx ≤ Chunk / IntSize - 2 ∧ idx < Chunk / IntSize - 1 :=
  doseek_touch_index_safe 0 Chunk 77 (by norm_num [Chunk, IntSize])

/-- C6 (amended): inside doseek every failed seek, read, write, and the
fsync of the update branch is fatal (the call reaches `io_error` and
never returns a result), and after the stop ticket a failed close or a
failed report write is fatal; `io_error` always exits with status 1
carrying a diagnostic naming the failed operation; but the fsync right
after the stop ticket is only a warning (see the counterexample). -/
theorem io_failures_fatal :
    (∀ (w : Nat) (u t s1 : Bool) (rr : Option Nat) (r : Nat)
        (s2 wr f : Bool) (res : DoseekResult),
        doseek_run w u t s1 rr r s2 wr f = IOResult.ok res →
          s1 = true ∧ rr ≠ none
            ∧ ((u && t) = true → s2 = true ∧ wr = true ∧ f = true))
    ∧ (∀ fs rep : Bool, (worker_finish fs false rep).2 = 1)
    ∧ (∀ fs cl rep : Bool,
        (worker_finish fs cl rep).2 = 0 → cl = true ∧ rep = true)
    ∧ (∀ cl rep : Bool, (worker_finish false cl rep).1 = ["fsync after seek"])
    ∧ (∀ m : String, (io_error m).1 = 1
        ∧ (io_error m).2 = "bonnie: drastic I/O error (" ++ m ++ ")") := by
  refine ⟨?_, ?_, ?_, ?_, ?_⟩
  · intro w u t s1 rr r s2 wr f res h
    rcases rr with _ | sz <;>
      cases s1 <;> cases u <;> cases t <;> cases s2 <;> cases wr <;> cases f <;>
      simp_all [doseek_run]
  · intro fs rep
    cases fs <;> simp [worker_finish, io_error]
  · intro fs cl rep h
    cases fs <;> cases cl <;> cases rep <;> simp_all [worker_finish, io_error]
  · intro cl rep
    cases cl <;> cases rep <;> simp [worker_finish, io_error]
  · intro m
    exact ⟨rfl, rfl⟩

/-- C6 (counterexample): a failed fsync after the stop ticket is NOT
fatal — the worker only prints the `fsync after seek` diagnostic via
perror and goes on to exit with status 0 when close and the report write
succeed, contradicting the claim that every failed flush terminates the
run with a non-zero exit status. -/
theorem worker_fsync_failure_not_fatal :
    worker_finish false true true = (["fsync after seek"], 0)
    ∧ (worker_finish false true true).2 = 0 := by
  exact ⟨rfl, rfl⟩

/-- Witness for C6 (amended), applied at an all-successful doseek run and
at a failed close. -/
theorem io_failures_fatal_witness :
    (true = true ∧ (some Chunk : Option Nat) ≠ none
      ∧ ((true && true) = true → true = true ∧ true = true ∧ true = true))
    ∧ (worker_finish true false true).2 = 1 :=
  ⟨io_failures_fatal.1 0 true true true (some Chunk) 0 true true true
      ⟨0, true, some 1⟩ (by decide),
   io_failures_fatal.2.1 true true⟩

/-- Any accepted configuration has a positive size: the post-loop
`if (file_size < 1) usage();` check guarantees it on every path through
the argument loop.  (Strong induction on the remaining argument count.) -/
lemma parse_opts_fileSize (n : Nat) :
    ∀ (l : List String) (cfg res : Config), l.length ≤ n →
      parse_opts l cfg = some res → 1 ≤ res.fileSize := by
  induction n with
  | zero =>
    intro l cfg res hl h
    rcases l with _ | ⟨a, rest⟩
    · simp only [parse_opts] at h
      split at h
      · cases h
      · rename_i hsize
        cases h
        omega
    · simp at hl
  | succ n ih =>
    intro l cfg res hl h
    rcases l with _ | ⟨a, _ | ⟨b, rest⟩⟩
    · simp only [parse_opts] at h
      split at h
      · cases h
      · rename_i hsize
        cases h
        omega
    · simp only [parse_opts] at h
      split at h
      · cases h
      · rename_i hsize
        cases h
        omega
    · simp only [parse_opts] at h
      split at h
      · split at h
        · exact ih rest _ res (by simp at hl ⊢; omega) h
        · split at h
          · exact ih rest _ res (by simp at hl ⊢; omega) h
          · split at h
            · exact ih rest _ res (by simp at hl ⊢; omega) h
            · split at h
              · exact ih rest _ res (by simp at hl ⊢; omega) h
              · cases h
      · cases h

/-- C7 (amended): whenever the argument scan examines an argument (i.e. at
least two arguments remain — the C loop runs `next < argc - 1`) that is
not one of the recognized flags `-d`, `-s`, `-m`, `-r`, it prints the
usage message and exits with status 1; and any invocation that proceeds
(parse returns a configuration) has `file_size ≥ 1`, so a non-positive
`-s` value always triggers the usage exit.  The final argv entry, however,
is never examined (see the counterexample). -/
theorem args_usage_behavior :
    (∀ (a b : String) (rest : List String) (cfg : Config),
        recognized_flag a = false → parse_opts (a :: b :: rest) cfg = none)
    ∧ (∀ (argv : List String) (cfg : Config),
        bonnie_parse argv = some cfg → 1 ≤ cfg.fileSize) := by
  constructor
  · intro a b rest cfg h
    simp only [parse_opts]
    split
    · rename_i flag heq
      rw [recognized_flag] at h
      rw [heq] at h
      simp only [Bool.or_eq_false_iff, beq_eq_false_iff_ne, ne_eq] at h
      obtain ⟨⟨⟨h1, h2⟩, h3⟩, h4⟩ := h
      simp [h1, h2, h3, h4]
    · rfl
  · intro argv cfg h
    exact parse_opts_fileSize (argv.drop 1).length (argv.drop 1) _ cfg
      le_rfl h

/-- C7 (counterexample): an unrecognized flag in the LAST argv position is
silently ignored — `bonnie -x` parses successfully with the default
configuration instead of printing usage and exiting non-zero, because the
loop `for (next = 1; next < argc - 1; next++)` never examines the final
argument. -/
theorem unrecognized_last_flag_ignored :
    bonnie_parse ["bonnie", "-x"] = some ⟨".", 24, "", false⟩
    ∧ bonnie_parse ["bonnie", "-x"] ≠ none := by
  exact ⟨by decide, by decide⟩

/-- Witness for C7 (amended): `-x` in a scanned position exits with usage,
and an accepted `-s 5` invocation has a positive size. -/
theorem args_usage_behavior_witness :
    parse_opts ["-x", "y"] ⟨".", 24, "", false⟩ = none
    ∧ 1 ≤ (Config.mk "." 5 "" false).fileSize :=
  ⟨args_usage_behavior.1 "-x" "y" [] ⟨".", 24, "", false⟩ (by decide),
   args_usage_behavior.2 ["bonnie", "-s", "5"] ⟨".", 5, "", false⟩ (by decide)⟩

/-- C9 (amended): in each rewrite-loop iteration entered after a
full-`Chunk` read, the code issues exactly two write calls of the same
buffer before the next read; the first goes to the just-read block's
offset `p = pos - Chunk`, but because the file position advances and the
code seeks back only once, the second write lands at `p + Chunk` — the
immediately following block's offset — and the next read starts at
`p + 2 * Chunk`. -/
theorem rewrite_double_write (fuel : Nat) (s : FState) :
    rewrite_loop (fuel + 1) s Chunk =
      (let p := s.pos - Chunk
       let size3 := max (max s.size (p + Chunk)) (p + Chunk + Chunk)
       let ret := min Chunk (size3 - (p + Chunk + Chunk))
       rewrite_loop fuel
         ⟨size3, p + Chunk + Chunk + ret,
          s.trace ++ [RwEvent.seekEv p, RwEvent.writeEv p Chunk,
                      RwEvent.writeEv (p + Chunk) Chunk,
                      RwEvent.readEv (p + Chunk + Chunk) Chunk ret]⟩ ret) := by
  conv_lhs => rw [rewrite_loop]
  simp

/-- C9 (counterexample): on a two-block file the rewrite phase's trace is
read block 0, seek back, write at 0, write at `Chunk`, read at
`2 * Chunk`; the second write of the pair does not target the just-read
block's original offset (the `writes_target_last_read` reading of the
claim evaluates to false on the actual trace). -/
theorem rewrite_second_write_wrong_offset :
    rewrite_phase 5 (2 * Chunk) =
      some ⟨2 * Chunk, 2 * Chunk,
        [RwEvent.readEv 0 Chunk Chunk, RwEvent.seekEv 0,
         RwEvent.writeEv 0 Chunk, RwEvent.writeEv Chunk Chunk,
         RwEvent.readEv (2 * Chunk) Chunk 0]⟩
    ∧ (rewrite_phase 5 (2 * Chunk)).map
        (fun st => writes_target_last_read st.trace 0) = some false := by
  exact ⟨by decide, by decide⟩
